import Mathlib

/-!
Verification of the match-scoring data flow of the recruit_ai repository.

The repository ships the talent-acquisition UI; the scoring engine itself is
not among its files (the spec records this), so the Aggregator, Keyword
Matcher, Field Scorer and Source Resolver below are modelled from the spec's
words, while the dialog rendering, result sorting and rule-field grouping are
translated from the TypeScript source
(src/talent-acquisition-ui/src/services/apiService.ts,
src/talent-acquisition-ui/src/components/common/DocxUploadModal.tsx,
src/unnamed/part_006, src/unnamed/part_008). Scores are rationals; JavaScript
dynamic values are modelled by a JSON value type.
-/

namespace RecruitAI

/-- JSON-like values: the model of dynamic (TypeScript `any`) data such as
`req_data`, `sources_evaluated[i].data` and the rule object fetched by the
rule overlay dialog. -/
inductive JsonVal where
  | null
  | bool (b : Bool)
  | num (q : ℚ)
  | str (s : String)
  | arr (xs : List JsonVal)
  | obj (fields : List (String × JsonVal))

/-- JavaScript falsiness of a JSON value (`!v` in the source): null (also
standing for undefined), false, 0 and the empty string are falsy. -/
def jsFalsy : JsonVal → Bool
  | .null => true
  | .bool b => !b
  | .num q => decide (q = 0)
  | .str s => decide (s = "")
  | _ => false

/-- Whether `typeof v === "object"` holds in JavaScript: true for plain
objects, arrays and null. -/
def typeofObject : JsonVal → Bool
  | .null => true
  | .arr _ => true
  | .obj _ => true
  | _ => false

/-- Whether the value is JSON null (`value === null` in the source). -/
def isNullJson : JsonVal → Bool
  | .null => true
  | _ => false

/-- The JavaScript `key in value` test as used on rule values: true when an
object literally carries the key. Arrays and scalars carry none of the rule
keys used by the dialog. -/
def hasKey : JsonVal → String → Bool
  | .obj fields, k => fields.any (fun p => p.1 == k)
  | _, _ => false

/-- JavaScript property access `v[k]`, with a missing property modelled as
null (missing reads yield undefined, which the guarding code treats exactly
like null via falsiness). -/
def jsGet : JsonVal → String → JsonVal
  | .obj fields, k =>
    match fields.find? (fun p => p.1 == k) with
    | some p => p.2
    | none => .null
  | _, _ => .null

/-- The entry list produced by `Object.entries(v)`: an object's key/value
pairs, an array's index/value pairs, a string's index/character pairs, and
the empty list for the remaining primitives. -/
def jsEntries : JsonVal → List (String × JsonVal)
  | .obj fields => fields
  | .arr xs => xs.enum.map (fun p => (Nat.repr p.1, p.2))
  | .str s => s.toList.enum.map (fun p => (Nat.repr p.1, .str (String.singleton p.2)))
  | _ => []

/-- `Array.prototype.join(sep)` on a list of strings. -/
def jsJoin (sep : String) : List String → String
  | [] => ""
  | x :: xs => xs.foldl (fun acc y => acc ++ sep ++ y) x

mutual

/-- JavaScript `String(v)` coercion of a JSON value: strings unchanged, null
printed, booleans and numbers printed, arrays joined with commas, plain
objects printed as `[object Object]`. -/
def jsStringOf : JsonVal → String
  | .null => "null"
  | .bool b => cond b "true" "false"
  | .num q => toString q
  | .str s => s
  | .arr xs => jsJoin "," (jsStringList xs)
  | .obj _ => "[object Object]"

/-- String coercion mapped over a list of JSON values. -/
def jsStringList : List JsonVal → List String
  | [] => []
  | x :: xs => jsStringOf x :: jsStringList xs

end

/- ------------------------------------------------------------------ -/
/- Match result data model, from src/talent-acquisition-ui/src/types/
   matchTypes.ts (concatenated into DocxUploadModal.tsx lines 669-774). -/

/-- One source attempted for a field (`SourceEvaluated`, matchTypes.ts). -/
structure SourceEvaluated where
  source_field : String
  data : JsonVal
  score : ℚ
  confidence : ℚ

/-- One field's result (`MatchResult`, matchTypes.ts). `req_data` is
`string | string[]` in the source and is carried as a JSON value. -/
structure MatchResult where
  field : String
  score : ℚ
  confidence : ℚ
  best_source_used : String
  req_data : JsonVal
  sources_evaluated : List SourceEvaluated

/-- The whole match response (`MatchResultResponse`, matchTypes.ts). The
`results` array may be absent at runtime (the dialog guards
`!matchResponse.results`), so it is carried as an option. -/
structure MatchResultResponse where
  results : Option (List MatchResult)
  overall_score_weighted : ℚ
  overall_score_average_all : ℚ
  overall_score_average_non_zero : ℚ
  max_score : ℚ
  max_score_field : String

/-- A persisted match record (`MatchResultRecord`, matchTypes.ts);
`matchResultsJson` is `any` in the source and nullable at runtime. -/
structure MatchResultRecord where
  id : String
  jobId : ℚ
  profileId : ℚ
  candidateName : String
  overallScore : ℚ
  matchResultsJson : Option MatchResultResponse
  organizationId : String
  agencyId : Option String
  createdBy : String
  createdAt : String

/- ------------------------------------------------------------------ -/
/- Aggregator, modelled from the spec (the engine is not in the repo). -/

/-- Modelled from the spec: one scored field together with its rule's
weightage, the input row of the Aggregator of spec section 4.4 (the scoring
engine that computes it is not part of this repository's files). -/
structure FieldScore where
  field : String
  score : ℚ
  weightage : ℚ
deriving DecidableEq

/-- Modelled from the spec: the Aggregator's output record, shaped like
`MatchResultResponse` without the per-field breakdown. -/
structure AggregateResult where
  overall_score_weighted : ℚ
  overall_score_average_all : ℚ
  overall_score_average_non_zero : ℚ
  max_score : ℚ
  max_score_field : String
deriving DecidableEq

/-- One step of the weighted accumulation: a field contributes
`score * weightage` to the numerator and `weightage` to the denominator
exactly when its weightage is positive. -/
def weightedAccumStep (acc : ℚ × ℚ) (r : FieldScore) : ℚ × ℚ :=
  if 0 < r.weightage then (acc.1 + r.score * r.weightage, acc.2 + r.weightage) else acc

/-- The weighted numerator/denominator pair accumulated over all fields. -/
def weightedAccum (rs : List FieldScore) : ℚ × ℚ :=
  rs.foldl weightedAccumStep (0, 0)

/-- Modelled from the spec: `overall_score_weighted`, with the
division-by-zero case (no positively weighted field) defaulting to 0. -/
def overallScoreWeighted (rs : List FieldScore) : ℚ :=
  if (weightedAccum rs).2 = 0 then 0 else (weightedAccum rs).1 / (weightedAccum rs).2

/-- Modelled from the spec: `overall_score_average_all`, the arithmetic mean
of every score, 0 for an empty list. -/
def overallScoreAverageAll (rs : List FieldScore) : ℚ :=
  if rs.length = 0 then 0 else (rs.map FieldScore.score).sum / (rs.length : ℚ)

/-- The fields whose score is non-zero. -/
def nonZeroScores (rs : List FieldScore) : List FieldScore :=
  rs.filter (fun r => !(decide (r.score = 0)))

/-- Modelled from the spec: `overall_score_average_non_zero`, the mean over
fields with non-zero score, 0 when there is none. -/
def overallScoreAverageNonZero (rs : List FieldScore) : ℚ :=
  if (nonZeroScores rs).length = 0 then 0
  else ((nonZeroScores rs).map FieldScore.score).sum / ((nonZeroScores rs).length : ℚ)

/-- One step of the running maximum: a later field replaces the current best
only when its score is strictly higher, so the first occurrence wins ties. -/
def maxAccumStep (acc : String × ℚ) (r : FieldScore) : String × ℚ :=
  if acc.2 < r.score then (r.field, r.score) else acc

/-- Modelled from the spec: the `(max_score_field, max_score)` pair, starting
from `("", 0)` for the degenerate empty input. -/
def maxAccum (rs : List FieldScore) : String × ℚ :=
  rs.foldl maxAccumStep ("", 0)

/-- Modelled from the spec: the Aggregator of spec section 4.4. -/
def aggregate (rs : List FieldScore) : AggregateResult :=
  { overall_score_weighted := overallScoreWeighted rs
    overall_score_average_all := overallScoreAverageAll rs
    overall_score_average_non_zero := overallScoreAverageNonZero rs
    max_score := (maxAccum rs).2
    max_score_field := (maxAccum rs).1 }

/-- The spec's weighted numerator: the sum of `score * weightage` over the
fields with positive weightage. -/
def posWeightNum (rs : List FieldScore) : ℚ :=
  ((rs.filter (fun r => decide (0 < r.weightage))).map (fun r => r.score * r.weightage)).sum

/-- The spec's weighted denominator: the sum of the positive weightages. -/
def posWeightDen (rs : List FieldScore) : ℚ :=
  ((rs.filter (fun r => decide (0 < r.weightage))).map FieldScore.weightage).sum

/- ------------------------------------------------------------------ -/
/- Keyword Matcher, modelled from the spec (section 4.5); the repository
   only carries its output shape (`KeywordMatcher`, src/unnamed/part_008). -/

/-- Modelled from the spec: one weighted keyword entry of a rule category. -/
structure KeywordEntry where
  keyword : String
  weight : ℚ
  match_type : String
deriving DecidableEq

/-- Modelled from the spec: a named keyword rule category. -/
structure KeywordRuleCategory where
  name : String
  entries : List KeywordEntry
deriving DecidableEq

/-- Modelled from the spec: the Keyword Matcher's output, shaped like the
`KeywordMatcher` interface of src/unnamed/part_008. -/
structure KeywordMatcherResult where
  category_scores : List (String × ℚ)
  matched_details : List (String × List KeywordEntry)
  missing_details : List (String × List KeywordEntry)
  overall_match_score : ℚ
  total_achieved_score : ℚ
  total_possible_score : ℚ

/-- The weight a category achieves: the sum of the weights of its matched
entries, where `found` abstracts the category's match strategy (exact token,
stemmed or fuzzy -- the spec leaves the algorithm open). -/
def categoryAchieved (found : KeywordEntry → String → Bool) (text : String)
    (c : KeywordRuleCategory) : ℚ :=
  ((c.entries.filter (fun e => found e text)).map KeywordEntry.weight).sum

/-- The weight a category could achieve: the sum of all its weights. -/
def categoryPossible (c : KeywordRuleCategory) : ℚ :=
  (c.entries.map KeywordEntry.weight).sum

/-- Modelled from the spec: the Keyword Matcher of spec section 4.5. Every
keyword contributes its weight to `total_possible_score`; a matched keyword
also contributes it to `total_achieved_score`; the overall score is the
achieved fraction in percent, 0 when nothing was possible. -/
def matchKeywords (found : KeywordEntry → String → Bool)
    (cats : List KeywordRuleCategory) (text : String) : KeywordMatcherResult :=
  let possible := (cats.map categoryPossible).sum
  let achieved := (cats.map (categoryAchieved found text)).sum
  { category_scores := cats.map (fun c => (c.name, categoryAchieved found text c))
    matched_details := cats.map (fun c => (c.name, c.entries.filter (fun e => found e text)))
    missing_details := cats.map (fun c => (c.name, c.entries.filter (fun e => !(found e text))))
    overall_match_score := if possible = 0 then 0 else achieved / possible * 100
    total_achieved_score := achieved
    total_possible_score := possible }

/- ------------------------------------------------------------------ -/
/- Field Scorer, modelled from the spec (section 4.3). -/

/-- The rule types of the data model (spec section 3). -/
inductive RuleType where
  | EXACT
  | RANGE
  | DESCRIPTIVE
  | NEGATIVE_CONSTRAINT
deriving DecidableEq

/-- Case/whitespace normalisation used by EXACT scoring. -/
def normalizeText (s : String) : String :=
  s.trim.toLower

/-- Modelled from the spec: EXACT scoring -- 100 on a normalised match,
otherwise 0. -/
def exactScore (expected actual : String) : ℚ :=
  if normalizeText expected = normalizeText actual then 100 else 0

/-- Modelled from the spec: RANGE scoring -- the candidate point or range is
scored by its proportion of overlap with the expected range, full containment
giving 100 and no overlap giving 0. -/
def rangeScore (lo hi clo chi : ℚ) : ℚ :=
  if chi ≤ clo then (if lo ≤ clo ∧ clo ≤ hi then 100 else 0)
  else (min 1 (max 0 (min hi chi - max lo clo) / (chi - clo))) * 100

/-- Modelled from the spec: DESCRIPTIVE scoring -- the similarity (normalised
into [0,1]) times 100, rounded; the similarity computation itself is an
external collaborator. -/
def descriptiveScore (sim : ℚ) : ℚ :=
  ((⌊(max 0 (min 1 sim)) * 100 + 1 / 2⌋ : ℤ) : ℚ)

/-- Modelled from the spec: the NEGATIVE_CONSTRAINT penalty per unit of
deviation, a policy constant (spec section 9 leaves the exact unit open and
asks the implementer to fix one). -/
def negPenaltyUnit : ℚ := 10

/-- Modelled from the spec: NEGATIVE_CONSTRAINT scoring -- 0 when the
candidate is within the threshold, and a penalty proportional to the
deviation, floored at -100 to keep the documented score range. -/
def negConstraintScore (threshold candidate : ℚ) : ℚ :=
  if candidate ≤ threshold then 0
  else max (-100) (-((candidate - threshold) * negPenaltyUnit))

/-- One Field Scorer invocation: the rule type together with the data it
scores (expected value and extracted candidate value). -/
inductive FieldScoreCase where
  | exact (expected actual : String)
  | range (lo hi clo chi : ℚ)
  | descriptive (sim : ℚ)
  | negConstraint (threshold candidate : ℚ)

/-- Modelled from the spec: the Field Scorer's score, dispatched on the rule
type (spec section 4.3). -/
def fieldScore : FieldScoreCase → ℚ
  | .exact e a => exactScore e a
  | .range lo hi clo chi => rangeScore lo hi clo chi
  | .descriptive sim => descriptiveScore sim
  | .negConstraint t v => negConstraintScore t v

/-- The rule type of a scoring case. -/
def caseType : FieldScoreCase → RuleType
  | .exact _ _ => .EXACT
  | .range _ _ _ _ => .RANGE
  | .descriptive _ => .DESCRIPTIVE
  | .negConstraint _ _ => .NEGATIVE_CONSTRAINT

/- ------------------------------------------------------------------ -/
/- Source Resolver, modelled from the spec (section 4.2). -/

/-- The audit entry recorded for every source attempted for a rule
(`Candidate Source Value` of spec section 3; `SourceEvaluated` is its JSON
shape). `data = none` models the JSON null recorded for a dry source. -/
structure CandidateSourceValue where
  source_field : String
  data : Option JsonVal
  score : ℚ
  confidence : ℚ

/-- Modelled from the spec: how one configured source path is recorded -- a
path yielding no data is kept with null data, score 0 and confidence 0,
never skipped; `ev` abstracts the per-source scoring (score, confidence). -/
def resolveOne (profile : String → Option JsonVal)
    (ev : String → JsonVal → ℚ × ℚ) (s : String) : CandidateSourceValue :=
  match profile s with
  | none => { source_field := s, data := none, score := 0, confidence := 0 }
  | some d => { source_field := s, data := some d, score := (ev s d).1, confidence := (ev s d).2 }

/-- Modelled from the spec: the Source Resolver iterates the rule's
`profiledatasource` paths in order and records one entry per path. -/
def resolve (profile : String → Option JsonVal)
    (ev : String → JsonVal → ℚ × ℚ) (sources : List String) : List CandidateSourceValue :=
  sources.map (resolveOne profile ev)

/-- The running best over the remaining sources: a later source wins only
with a strictly higher score, so the earlier source keeps ties. -/
def pickBest (c : CandidateSourceValue) (cs : List CandidateSourceValue) : CandidateSourceValue :=
  cs.foldl (fun best x => if best.score < x.score then x else best) c

/-- Modelled from the spec: `best_source_used` -- the evaluated source with
the highest score, earliest first on ties; none when nothing was evaluated. -/
def bestSource : List CandidateSourceValue → Option CandidateSourceValue
  | [] => none
  | c :: cs => some (pickBest c cs)

/- ------------------------------------------------------------------ -/
/- Rendering of the match dialog, from MatchResultDialog (apiService.ts,
   lines 498-645) and CandidateSearch (DocxUploadModal.tsx, lines 144-379). -/

/-- The fractional part `Number.prototype.toFixed(2)` prints: the last two
digits of the scaled magnitude, zero-padded to width 2. -/
def natPad2 (m : Nat) : String :=
  (if m % 100 < 10 then "0" else "") ++ Nat.repr (m % 100)

/-- The JavaScript `x.toFixed(2)` rendering of a number: x is scaled by 100
and rounded to the nearest integer (of two nearest integers the larger is
taken, per the ECMA-262 ToFixed algorithm), then printed with a sign, the
integer part, a dot and exactly two fractional digits. -/
def toFixed2 (q : ℚ) : String :=
  let n : ℤ := ⌊q * 100 + 1 / 2⌋
  (if n < 0 then "-" else "") ++ Nat.repr (n.natAbs / 100) ++ "." ++ natPad2 n.natAbs

/-- A string rendered with exactly two decimal places: it ends in a dot
followed by exactly two digits (the digit-only suffix pins the dot as the
decimal separator). -/
def twoDecimalRendered (s : String) : Prop :=
  ∃ pre post, s = pre ++ "." ++ post ∧ post.length = 2 ∧ post.data.all Char.isDigit = true

/-- One row of the "Sources Evaluated" table (apiService.ts lines 613-626). -/
structure SourceRow where
  sourceFieldText : String
  dataText : String
  scoreText : String
  confidenceText : String
deriving DecidableEq

/-- One accordion of the field-by-field breakdown (apiService.ts lines
564-634). -/
structure FieldEntry where
  fieldText : String
  scoreText : String
  confidenceText : String
  bestSourceText : String
  reqDataText : String
  sourceRows : List SourceRow

/-- The data cell of a sources row: an array is joined with " | " after
joining nested arrays with ", ", anything else goes through `String(...)`
(apiService.ts lines 616-622). -/
def sourceDataText : JsonVal → String
  | .arr xs =>
    jsJoin " | " (xs.map (fun d =>
      match d with
      | .arr ys => jsJoin ", " (jsStringList ys)
      | other => jsStringOf other))
  | v => jsStringOf v

/-- The required-data cell: an array is joined with ", ", anything else goes
through `String(...)` (apiService.ts line 596). -/
def reqDataText : JsonVal → String
  | .arr xs => jsJoin ", " (jsStringList xs)
  | v => jsStringOf v

/-- One rendered sources-evaluated row (apiService.ts lines 613-625): the
score and confidence cells go through `toFixed(2)`. -/
def renderSourceRow (s : SourceEvaluated) : SourceRow :=
  { sourceFieldText := s.source_field
    dataText := sourceDataText s.data
    scoreText := toFixed2 s.score
    confidenceText := toFixed2 s.confidence }

/-- One rendered field accordion (apiService.ts lines 564-634): `results.map`
renders every field result unconditionally; score and confidence go through
`toFixed(2)`; a falsy best source prints "N/A". -/
def renderFieldEntry (r : MatchResult) : FieldEntry :=
  { fieldText := r.field
    scoreText := toFixed2 r.score
    confidenceText := toFixed2 r.confidence
    bestSourceText := if r.best_source_used = "" then "N/A" else r.best_source_used
    reqDataText := reqDataText r.req_data
    sourceRows := r.sources_evaluated.map renderSourceRow }

/-- The four overall percentages of the "Overall Score Analysis" card
(apiService.ts lines 536-557), each through `toFixed(2)`. -/
def overallScoreStrings (m : MatchResultResponse) : List String :=
  [toFixed2 m.overall_score_weighted,
   toFixed2 m.overall_score_average_all,
   toFixed2 m.overall_score_average_non_zero,
   toFixed2 m.max_score]

/-- The percentage strings of one field accordion: its score, its confidence
and the score/confidence cells of its sources table. -/
def entryPercentStrings (e : FieldEntry) : List String :=
  e.scoreText :: e.confidenceText ::
    (e.sourceRows.map SourceRow.scoreText ++ e.sourceRows.map SourceRow.confidenceText)

/-- Every percentage string the match dialog shows for a response: the four
overall scores and each field's strings, empty when the results array is
absent (the dialog then shows the fallback). -/
def dialogPercentStrings (m : MatchResultResponse) : List String :=
  match m.results with
  | none => []
  | some rs => overallScoreStrings m ++ (rs.map renderFieldEntry).flatMap entryPercentStrings

/-- The "Overall Score" cell of a candidate search row
(DocxUploadModal.tsx line 350): `row.overallScore.toFixed(2)`. -/
def candidateRowScoreText (row : MatchResultRecord) : String :=
  toFixed2 row.overallScore

/-- The keyword matcher's "Overall Match Score" text
(AnalyseResumeForm.tsx line 372): `toFixed(2)` when present, else "N/A". -/
def keywordOverallScoreText (score : Option ℚ) : String :=
  match score with
  | some q => toFixed2 q
  | none => "N/A"

/-- What the match dialog renders: the fallback, or the report with the
overall strings and one entry per field result. -/
inductive DialogView where
  | noResults
  | report (overall : List String) (entries : List FieldEntry)

/-- The MatchResultDialog component (apiService.ts lines 498-645): a missing
response or missing/null results array renders the "No Match Results
Available" fallback; otherwise the report is built from the results. -/
def renderMatchResultDialog (m : Option MatchResultResponse) : DialogView :=
  match m with
  | none => .noResults
  | some mr =>
    match mr.results with
    | none => .noResults
    | some rs => .report (overallScoreStrings mr) (rs.map renderFieldEntry)

/- ------------------------------------------------------------------ -/
/- Candidate search sorting, from CandidateSearch (DocxUploadModal.tsx,
   lines 150-199). -/

/-- The sort directions of the search table. -/
inductive SortOrder where
  | asc
  | desc
deriving DecidableEq

/-- The sortable columns the table headers request (DocxUploadModal.tsx
lines 304-339): candidate name, profile id, overall score and the derived
job title. -/
inductive SortColumn where
  | candidateName
  | profileId
  | overallScore
  | jobTitle
deriving DecidableEq

/-- A comparison key: the string or number the comparator reads from a row. -/
inductive KeyVal where
  | str (s : String)
  | num (q : ℚ)
deriving DecidableEq

/-- JavaScript `v.toLowerCase()`: defined on strings, a TypeError on any
other value (in particular on a `string[]` req_data). -/
def jsToLowerCase : JsonVal → Except String String
  | .str s => .ok s.toLower
  | _ => .error "TypeError: toLowerCase is not a function"

/-- `getJobTitle` (DocxUploadModal.tsx lines 176-177): the `req_data` of the
`job_title` entry of the row's match results, with any falsy outcome
replaced by the empty string. -/
def getJobTitle (row : MatchResultRecord) : JsonVal :=
  match row.matchResultsJson with
  | none => .str ""
  | some mr =>
    match mr.results with
    | none => .str ""
    | some rs =>
      match rs.find? (fun r => r.field == "job_title") with
      | none => .str ""
      | some r => if jsFalsy r.req_data then .str "" else r.req_data

/-- The comparator's key for one row (DocxUploadModal.tsx lines 183-189):
the lowercased job title (which can raise a TypeError when `req_data` is an
array), or the plain column value. -/
def sortKey (orderBy : SortColumn) (row : MatchResultRecord) : Except String KeyVal :=
  match orderBy with
  | .jobTitle => (jsToLowerCase (getJobTitle row)).map KeyVal.str
  | .candidateName => .ok (.str row.candidateName)
  | .profileId => .ok (.num row.profileId)
  | .overallScore => .ok (.num row.overallScore)

/-- The key with the unreachable error case defaulted, used once every key
extraction is known to succeed. -/
def sortKeyTotal (orderBy : SortColumn) (row : MatchResultRecord) : KeyVal :=
  match sortKey orderBy row with
  | .ok k => k
  | .error _ => .str ""

/-- JavaScript `<` on two same-typed keys; mixed types never arise for a
fixed column. -/
def keyLtB : KeyVal → KeyVal → Bool
  | .str a, .str b => decide (a < b)
  | .num a, .num b => decide (a < b)
  | _, _ => false

/-- The comparator of DocxUploadModal.tsx lines 191-197: 1 when b's key is
below a's (-1 descending), -1 when above (1 descending), else 0. -/
def jsCompareRows (order : SortOrder) (orderBy : SortColumn)
    (a b : MatchResultRecord) : ℤ :=
  let ka := sortKeyTotal orderBy a
  let kb := sortKeyTotal orderBy b
  if keyLtB kb ka then (match order with | .asc => 1 | .desc => -1)
  else if keyLtB ka kb then (match order with | .asc => -1 | .desc => 1)
  else 0

/-- The `sortedResults` memo (DocxUploadModal.tsx lines 173-199): a missing
or empty results list yields the empty list; otherwise a copy
(`[...results]`) is sorted with the comparator. A JavaScript engine's sort
evaluates the comparator -- and hence every row's key -- whenever the array
has at least two elements, so a key extraction that raises surfaces as the
computation's error; a singleton is returned without any comparison. -/
def sortedResults (results : Option (List MatchResultRecord))
    (order : SortOrder) (orderBy : SortColumn) : Except String (List MatchResultRecord) :=
  match results with
  | none => .ok []
  | some rs =>
    if rs.length = 0 then .ok []
    else if rs.length = 1 then .ok rs
    else
      match rs.mapM (sortKey orderBy) with
      | .error e => .error e
      | .ok _ => .ok (rs.mergeSort (fun a b => decide (jsCompareRows order orderBy a b ≤ 0)))

/- ------------------------------------------------------------------ -/
/- Rule overlay dialog field grouping, from RuleOverlayDialog
   (src/unnamed/part_006, lines 104-143). -/

/-- `getGeneralRuleFields` (part_006 lines 124-135): the entries of the rule
object whose value is a non-null object carrying a `data` key, the
`keywordmatch` key excluded; a falsy rule object yields the empty list. -/
def getGeneralRuleFields (ruleData : JsonVal) : List (String × JsonVal) :=
  if jsFalsy ruleData then []
  else
    (jsEntries ruleData).filter (fun kv =>
      typeofObject kv.2 && !(isNullJson kv.2) && hasKey kv.2 "data" && kv.1 != "keywordmatch")

/-- `getKeywordMatchFields` (part_006 lines 137-143): the non-null entries of
the rule object's `keywordmatch` member; a falsy rule object or falsy
`keywordmatch` yields the empty list. -/
def getKeywordMatchFields (ruleData : JsonVal) : List (String × JsonVal) :=
  if jsFalsy ruleData then []
  else if jsFalsy (jsGet ruleData "keywordmatch") then []
  else (jsEntries (jsGet ruleData "keywordmatch")).filter (fun kv => !(isNullJson kv.2))

/- ================================================================== -/
/- Theorems.                                                           -/
/- ================================================================== -/

/-- Folding the weighted accumulation step from any start adds the positive
weighted numerator and denominator. -/
theorem weightedAccum_foldl (rs : List FieldScore) :
    ∀ acc : ℚ × ℚ, rs.foldl weightedAccumStep acc = (acc.1 + posWeightNum rs, acc.2 + posWeightDen rs) := by
  induction rs with
  | nil => intro acc; simp [posWeightNum, posWeightDen]
  | cons r rs ih =>
    intro acc
    by_cases h : 0 < r.weightage
    · simp only [List.foldl_cons, weightedAccumStep, if_pos h, ih]
      simp [posWeightNum, posWeightDen, List.filter_cons, h, Prod.ext_iff]
      constructor <;> ring
    · simp only [List.foldl_cons, weightedAccumStep, if_neg h, ih]
      simp [posWeightNum, posWeightDen, List.filter_cons, h]

/-- The weighted accumulator computes exactly the spec's numerator and
denominator over the positively weighted fields. -/
theorem weightedAccum_eq (rs : List FieldScore) :
    weightedAccum rs = (posWeightNum rs, posWeightDen rs) := by
  simpa using weightedAccum_foldl rs (0, 0)

/-- Dropping the zero-weight fields changes neither the numerator nor the
denominator of the weighted score. -/
theorem posWeight_drop_zero (rs : List FieldScore) :
    posWeightNum (rs.filter (fun r => r.weightage ≠ 0)) = posWeightNum rs
    ∧ posWeightDen (rs.filter (fun r => r.weightage ≠ 0)) = posWeightDen rs := by
  have hfilter :
      (rs.filter (fun r => r.weightage ≠ 0)).filter (fun r => decide (0 < r.weightage))
        = rs.filter (fun r => decide (0 < r.weightage)) := by
    rw [List.filter_filter]
    apply List.filter_congr
    intro r _
    by_cases h : 0 < r.weightage
    · simp [h, ne_of_gt h]
    · simp [h]
  constructor
  · unfold posWeightNum; rw [hfilter]
  · unfold posWeightDen; rw [hfilter]

/-- C1: the Aggregator's `overall_score_weighted` is the sum of
`score * weightage` over the fields with positive weightage divided by the
sum of those weightages, and fields with weightage 0 contribute to neither
the numerator nor the denominator (removing them changes nothing). -/
theorem aggregator_weighted_score_spec (rs : List FieldScore) (h : posWeightDen rs ≠ 0) :
    (aggregate rs).overall_score_weighted = posWeightNum rs / posWeightDen rs
    ∧ posWeightNum (rs.filter (fun r => r.weightage ≠ 0)) = posWeightNum rs
    ∧ posWeightDen (rs.filter (fun r => r.weightage ≠ 0)) = posWeightDen rs
    ∧ (aggregate (rs.filter (fun r => r.weightage ≠ 0))).overall_score_weighted
        = (aggregate rs).overall_score_weighted := by
  have hdrop := posWeight_drop_zero rs
  have hmain : ∀ l : List FieldScore, (aggregate l).overall_score_weighted =
      if posWeightDen l = 0 then 0 else posWeightNum l / posWeightDen l := by
    intro l
    show overallScoreWeighted l = _
    unfold overallScoreWeighted
    rw [weightedAccum_eq]
  refine ⟨?_, hdrop.1, hdrop.2, ?_⟩
  · rw [hmain rs, if_neg h]
  · rw [hmain rs, hmain (rs.filter (fun r => r.weightage ≠ 0)), hdrop.1, hdrop.2]

/-- Witness for C1 at a concrete single positively weighted field. -/
theorem aggregator_weighted_score_spec_witness :
    (aggregate [({ field := "a", score := 80, weightage := 2 } : FieldScore)]).overall_score_weighted = 80 := by
  have h := (aggregator_weighted_score_spec
    [({ field := "a", score := 80, weightage := 2 } : FieldScore)]
    (by norm_num [posWeightDen])).1
  rw [h]; norm_num [posWeightNum, posWeightDen]

/-- With every score zero the running maximum never moves off its start. -/
theorem maxAccum_all_zero (rs : List FieldScore) (h : ∀ r ∈ rs, r.score = 0) :
    maxAccum rs = ("", 0) := by
  unfold maxAccum
  induction rs with
  | nil => rfl
  | cons r rs ih =>
    have hr : r.score = 0 := h r (by simp)
    have hstep : maxAccumStep ("", 0) r = ("", 0) := by
      simp [maxAccumStep, hr]
    rw [List.foldl_cons, hstep]
    exact ih (fun x hx => h x (by simp [hx]))

/-- C2 (amended): on the empty input every aggregate output is 0; when every
weightage is 0 the weighted score is 0; when every score is 0 all four
aggregate outputs are 0 (in particular the non-zero average is 0 whenever no
field has a non-zero score); every output is total, never an error. -/
theorem aggregator_degenerate_defaults (rs : List FieldScore) :
    aggregate [] = { overall_score_weighted := 0, overall_score_average_all := 0,
                     overall_score_average_non_zero := 0, max_score := 0, max_score_field := "" }
    ∧ ((∀ r ∈ rs, r.weightage = 0) → (aggregate rs).overall_score_weighted = 0)
    ∧ ((∀ r ∈ rs, r.score = 0) →
        (aggregate rs).overall_score_weighted = 0
        ∧ (aggregate rs).overall_score_average_all = 0
        ∧ (aggregate rs).overall_score_average_non_zero = 0
        ∧ (aggregate rs).max_score = 0) := by
  refine ⟨rfl, ?_, ?_⟩
  · intro hw
    show overallScoreWeighted rs = 0
    unfold overallScoreWeighted
    rw [weightedAccum_eq]
    have hd : posWeightDen rs = 0 := by
      unfold posWeightDen
      have : rs.filter (fun r => decide (0 < r.weightage)) = [] := by
        rw [List.filter_eq_nil_iff]
        intro r hr
        simp [hw r hr]
      rw [this]; rfl
    simp [hd]
  · intro hs
    have hnum : posWeightNum rs = 0 := by
      unfold posWeightNum
      apply List.sum_eq_zero
      intro x hx
      rcases List.mem_map.mp hx with ⟨r, hr, hval⟩
      rw [← hval, hs r (List.mem_of_mem_filter hr), zero_mul]
    have hsum : (rs.map FieldScore.score).sum = 0 := by
      apply List.sum_eq_zero
      intro x hx
      rcases List.mem_map.mp hx with ⟨r, hr, hval⟩
      rw [← hval, hs r hr]
    have hnz : nonZeroScores rs = [] := by
      unfold nonZeroScores
      rw [List.filter_eq_nil_iff]
      intro r hr
      simp [hs r hr]
    refine ⟨?_, ?_, ?_, ?_⟩
    · show overallScoreWeighted rs = 0
      unfold overallScoreWeighted
      rw [weightedAccum_eq]
      by_cases hd : posWeightDen rs = 0 <;> simp [hd, hnum]
    · show overallScoreAverageAll rs = 0
      unfold overallScoreAverageAll
      by_cases hl : rs.length = 0 <;> simp [hl, hsum]
    · show overallScoreAverageNonZero rs = 0
      unfold overallScoreAverageNonZero
      rw [hnz]
      rfl
    · show (maxAccum rs).2 = 0
      rw [maxAccum_all_zero rs hs]

/-- Witness for C2 at a concrete degenerate input. -/
theorem aggregator_degenerate_defaults_witness :
    (aggregate [({ field := "f", score := 0, weightage := 0 } : FieldScore)]).overall_score_weighted = 0
    ∧ (aggregate [({ field := "f", score := 0, weightage := 0 } : FieldScore)]).max_score = 0 := by
  have h := aggregator_degenerate_defaults [({ field := "f", score := 0, weightage := 0 } : FieldScore)]
  exact ⟨h.2.1 (by simp), (h.2.2 (by simp)).2.2.2⟩

/-- C2 counterexample: a single field with score 50 and weightage 0 has every
weightage equal to 0, yet `overall_score_average_all` is 50, not 0 -- so not
all aggregate outputs are 0 in the all-weightage-zero case. -/
theorem aggregator_degenerate_cex :
    (∀ r ∈ [({ field := "f", score := 50, weightage := 0 } : FieldScore)], r.weightage = 0)
    ∧ (aggregate [({ field := "f", score := 50, weightage := 0 } : FieldScore)]).overall_score_average_all ≠ 0 := by
  exact ⟨by simp, by norm_num [aggregate, overallScoreAverageAll]⟩

/-- With non-negative weights a category achieves at most its possible
weight: the matched entries are a sublist of all entries. -/
theorem categoryAchieved_le_possible (found : KeywordEntry → String → Bool) (text : String)
    (c : KeywordRuleCategory) (h : ∀ e ∈ c.entries, 0 ≤ e.weight) :
    categoryAchieved found text c ≤ categoryPossible c := by
  unfold categoryAchieved categoryPossible
  apply List.Sublist.sum_le_sum
  · exact List.Sublist.map _ (List.filter_sublist _)
  · intro a ha
    rcases List.mem_map.mp ha with ⟨e, he, rfl⟩
    exact h e he

/-- With non-negative weights a category's achieved weight is non-negative. -/
theorem categoryAchieved_nonneg (found : KeywordEntry → String → Bool) (text : String)
    (c : KeywordRuleCategory) (h : ∀ e ∈ c.entries, 0 ≤ e.weight) :
    0 ≤ categoryAchieved found text c := by
  unfold categoryAchieved
  apply List.sum_nonneg
  intro a ha
  rcases List.mem_map.mp ha with ⟨e, he, rfl⟩
  exact h e (List.mem_of_mem_filter he)

/-- With non-negative weights a category's possible weight is non-negative. -/
theorem categoryPossible_nonneg (c : KeywordRuleCategory)
    (h : ∀ e ∈ c.entries, 0 ≤ e.weight) :
    0 ≤ categoryPossible c := by
  unfold categoryPossible
  apply List.sum_nonneg
  intro a ha
  rcases List.mem_map.mp ha with ⟨e, he, rfl⟩
  exact h e he

/-- C3: for any match strategy, categories with non-negative weights and
resume text, the Keyword Matcher's overall score is achieved/possible times
100 (0 when nothing is possible), the achieved score never exceeds the
possible score, and the overall score lies in [0, 100]. -/
theorem keyword_matcher_score_spec (found : KeywordEntry → String → Bool)
    (cats : List KeywordRuleCategory) (text : String)
    (hw : ∀ c ∈ cats, ∀ e ∈ c.entries, 0 ≤ e.weight) :
    (matchKeywords found cats text).overall_match_score =
      (if (matchKeywords found cats text).total_possible_score = 0 then 0
       else (matchKeywords found cats text).total_achieved_score
            / (matchKeywords found cats text).total_possible_score * 100)
    ∧ (matchKeywords found cats text).total_achieved_score
        ≤ (matchKeywords found cats text).total_possible_score
    ∧ 0 ≤ (matchKeywords found cats text).overall_match_score
    ∧ (matchKeywords found cats text).overall_match_score ≤ 100 := by
  have hA : 0 ≤ (cats.map (categoryAchieved found text)).sum := by
    apply List.sum_nonneg
    intro a ha
    rcases List.mem_map.mp ha with ⟨c, hc, rfl⟩
    exact categoryAchieved_nonneg found text c (hw c hc)
  have hP : 0 ≤ (cats.map categoryPossible).sum := by
    apply List.sum_nonneg
    intro a ha
    rcases List.mem_map.mp ha with ⟨c, hc, rfl⟩
    exact categoryPossible_nonneg c (hw c hc)
  have hAP : (cats.map (categoryAchieved found text)).sum ≤ (cats.map categoryPossible).sum :=
    List.sum_le_sum (fun c hc => categoryAchieved_le_possible found text c (hw c hc))
  simp only [matchKeywords]
  refine ⟨trivial, hAP, ?_, ?_⟩
  · by_cases h0 : (cats.map categoryPossible).sum = 0
    · simp [h0]
    · rw [if_neg h0]
      exact mul_nonneg (div_nonneg hA hP) (by norm_num)
  · by_cases h0 : (cats.map categoryPossible).sum = 0
    · simp [h0]
    · rw [if_neg h0]
      have hPpos : 0 < (cats.map categoryPossible).sum := lt_of_le_of_ne hP (Ne.symm h0)
      calc (cats.map (categoryAchieved found text)).sum / (cats.map categoryPossible).sum * 100
          ≤ 1 * 100 := by
            apply mul_le_mul_of_nonneg_right ((div_le_one hPpos).mpr hAP) (by norm_num)
        _ = 100 := one_mul 100

/-- Witness for C3 at a concrete category and accepting match strategy. -/
theorem keyword_matcher_score_spec_witness :
    (matchKeywords (fun _ _ => true)
      [{ name := "langs", entries := [{ keyword := "java", weight := 2, match_type := "exact" }] }]
      "java resume").overall_match_score = 100 := by
  have h := (keyword_matcher_score_spec (fun _ _ => true)
    [{ name := "langs", entries := [{ keyword := "java", weight := 2, match_type := "exact" }] }]
    "java resume" (by norm_num)).1
  rw [h]
  norm_num [matchKeywords, categoryAchieved, categoryPossible]

/-- EXACT scoring yields either 0 or 100, so it stays in [0, 100]. -/
theorem exactScore_bounds (expected actual : String) :
    0 ≤ exactScore expected actual ∧ exactScore expected actual ≤ 100 := by
  unfold exactScore
  split <;> norm_num

/-- RANGE scoring stays in [0, 100]: the overlap proportion is clamped into
[0, 1] before scaling. -/
theorem rangeScore_bounds (lo hi clo chi : ℚ) :
    0 ≤ rangeScore lo hi clo chi ∧ rangeScore lo hi clo chi ≤ 100 := by
  unfold rangeScore
  by_cases h : chi ≤ clo
  · rw [if_pos h]; split <;> norm_num
  · rw [if_neg h]
    have hpos : 0 < chi - clo := by
      have := lt_of_not_le h
      linarith
    have h0 : 0 ≤ max 0 (min hi chi - max lo clo) / (chi - clo) :=
      div_nonneg (le_max_left _ _) (le_of_lt hpos)
    constructor
    · exact mul_nonneg (le_min (by norm_num) h0) (by norm_num)
    · calc (min 1 (max 0 (min hi chi - max lo clo) / (chi - clo))) * 100
          ≤ 1 * 100 := mul_le_mul_of_nonneg_right (min_le_left _ _) (by norm_num)
        _ = 100 := one_mul 100

/-- DESCRIPTIVE scoring stays in [0, 100]: the similarity is clamped into
[0, 1] and the rounded percentage lands between 0 and 100. -/
theorem descriptiveScore_bounds (sim : ℚ) :
    0 ≤ descriptiveScore sim ∧ descriptiveScore sim ≤ 100 := by
  unfold descriptiveScore
  have hx0 : 0 ≤ max 0 (min 1 sim) := le_max_left _ _
  have hx1 : max 0 (min 1 sim) ≤ 1 := max_le (by norm_num) (min_le_left _ _)
  have hlow : (0 : ℤ) ≤ ⌊(max 0 (min 1 sim)) * 100 + 1 / 2⌋ := by
    apply Int.le_floor.mpr
    push_cast
    nlinarith
  have hhigh : ⌊(max 0 (min 1 sim)) * 100 + 1 / 2⌋ ≤ 100 := by
    have hlt : ⌊(max 0 (min 1 sim)) * 100 + 1 / 2⌋ < 101 := by
      apply Int.floor_lt.mpr
      push_cast
      nlinarith
    omega
  exact ⟨by exact_mod_cast hlow, by exact_mod_cast hhigh⟩

/-- NEGATIVE_CONSTRAINT scoring stays in [-100, 0]: satisfied constraints
score 0 and the penalty is floored at -100. -/
theorem negConstraintScore_bounds (t v : ℚ) :
    -100 ≤ negConstraintScore t v ∧ negConstraintScore t v ≤ 0 := by
  unfold negConstraintScore
  by_cases h : v ≤ t
  · rw [if_pos h]; norm_num
  · rw [if_neg h]
    refine ⟨le_max_left _ _, max_le (by norm_num) ?_⟩
    have hd : 0 < v - t := by
      have := lt_of_not_le h
      linarith
    have hu : negPenaltyUnit = 10 := rfl
    nlinarith

/-- C4: a NEGATIVE_CONSTRAINT candidate exactly at the threshold scores 0 and
one unit beyond scores strictly negative; every field score lies in
[-100, 100]; and a negative score arises only from a violated
NEGATIVE_CONSTRAINT rule. -/
theorem field_scorer_negative_constraint_spec (t : ℚ) (c : FieldScoreCase) :
    negConstraintScore t t = 0
    ∧ negConstraintScore t (t + 1) < 0
    ∧ (-100 ≤ fieldScore c ∧ fieldScore c ≤ 100)
    ∧ (fieldScore c < 0 → ∃ thr v, c = FieldScoreCase.negConstraint thr v ∧ thr < v) := by
  refine ⟨?_, ?_, ?_, ?_⟩
  · unfold negConstraintScore
    rw [if_pos (le_refl t)]
  · unfold negConstraintScore
    rw [if_neg (by linarith)]
    apply max_lt (by norm_num)
    have hval : (t + 1 - t) * negPenaltyUnit = 10 := by
      have hu : negPenaltyUnit = 10 := rfl
      rw [hu]; ring
    rw [hval]
    norm_num
  · cases c with
    | exact e a =>
      have h := exactScore_bounds e a
      exact ⟨by simpa [fieldScore] using le_trans (by norm_num) h.1, by simpa [fieldScore] using h.2⟩
    | range lo hi clo chi =>
      have h := rangeScore_bounds lo hi clo chi
      exact ⟨by simpa [fieldScore] using le_trans (by norm_num) h.1, by simpa [fieldScore] using h.2⟩
    | descriptive sim =>
      have h := descriptiveScore_bounds sim
      exact ⟨by simpa [fieldScore] using le_trans (by norm_num) h.1, by simpa [fieldScore] using h.2⟩
    | negConstraint thr v =>
      have h := negConstraintScore_bounds thr v
      exact ⟨by simpa [fieldScore] using h.1, by simpa [fieldScore] using le_trans h.2 (by norm_num)⟩
  · intro hneg
    cases c with
    | exact e a =>
      exact absurd hneg (not_lt.mpr (by simpa [fieldScore] using (exactScore_bounds e a).1))
    | range lo hi clo chi =>
      exact absurd hneg (not_lt.mpr (by simpa [fieldScore] using (rangeScore_bounds lo hi clo chi).1))
    | descriptive sim =>
      exact absurd hneg (not_lt.mpr (by simpa [fieldScore] using (descriptiveScore_bounds sim).1))
    | negConstraint thr v =>
      refine ⟨thr, v, rfl, ?_⟩
      by_contra hle
      have hsat : v ≤ thr := by linarith [not_lt.mp hle]
      have : fieldScore (FieldScoreCase.negConstraint thr v) = 0 := by
        simp [fieldScore, negConstraintScore, hsat]
      rw [this] at hneg
      exact absurd hneg (by norm_num)

/-- Witness for C4 at concrete thresholds and a concretely violated
constraint. -/
theorem field_scorer_negative_constraint_spec_witness :
    negConstraintScore 3 3 = 0
    ∧ negConstraintScore 3 (3 + 1) < 0
    ∧ (∃ thr v, FieldScoreCase.negConstraint 2 5 = FieldScoreCase.negConstraint thr v ∧ thr < v) := by
  refine ⟨(field_scorer_negative_constraint_spec 3 (FieldScoreCase.exact "" "x")).1,
    (field_scorer_negative_constraint_spec 3 (FieldScoreCase.exact "" "x")).2.1, ?_⟩
  exact (field_scorer_negative_constraint_spec 2 (FieldScoreCase.negConstraint 2 5)).2.2.2
    (by norm_num [fieldScore, negConstraintScore, negPenaltyUnit])

/-- The running best never scores below its seed. -/
theorem le_pickBest (cs : List CandidateSourceValue) :
    ∀ c : CandidateSourceValue, c.score ≤ (pickBest c cs).score := by
  induction cs with
  | nil => intro c; simp [pickBest]
  | cons x cs ih =>
    intro c
    have hstep : pickBest c (x :: cs) = pickBest (if c.score < x.score then x else c) cs := rfl
    rw [hstep]
    by_cases hcx : c.score < x.score
    · rw [if_pos hcx]
      exact le_of_lt (lt_of_lt_of_le hcx (ih x))
    · rw [if_neg hcx]
      exact ih c

/-- The running best is the first element attaining the maximal score: the
seeded list splits around it, with strictly smaller scores before it and no
larger score after it. -/
theorem pickBest_split (cs : List CandidateSourceValue) :
    ∀ c : CandidateSourceValue, ∃ l1 l2, c :: cs = l1 ++ pickBest c cs :: l2
      ∧ (∀ x ∈ l1, x.score < (pickBest c cs).score)
      ∧ (∀ x ∈ l2, x.score ≤ (pickBest c cs).score) := by
  induction cs with
  | nil =>
    intro c
    exact ⟨[], [], by simp [pickBest], by simp, by simp⟩
  | cons x cs ih =>
    intro c
    have hstep : pickBest c (x :: cs) = pickBest (if c.score < x.score then x else c) cs := rfl
    by_cases hcx : c.score < x.score
    · rcases ih x with ⟨l1, l2, heq, hlt, hle⟩
      have hb : pickBest c (x :: cs) = pickBest x cs := by rw [hstep, if_pos hcx]
      refine ⟨c :: l1, l2, ?_, ?_, ?_⟩
      · rw [hb, List.cons_append, ← heq]
      · intro y hy
        rcases List.mem_cons.mp hy with rfl | hy2
        · rw [hb]; exact lt_of_lt_of_le hcx (le_pickBest cs x)
        · rw [hb]; exact hlt y hy2
      · intro y hy
        rw [hb]; exact hle y hy
    · rcases ih c with ⟨l1, l2, heq, hlt, hle⟩
      have hb : pickBest c (x :: cs) = pickBest c cs := by rw [hstep, if_neg hcx]
      have hxc : x.score ≤ c.score := le_of_not_lt hcx
      cases l1 with
      | nil =>
        simp only [List.nil_append] at heq
        rw [List.cons.injEq] at heq
        obtain ⟨hcb, hcs⟩ := heq
        refine ⟨[], x :: cs, ?_, by simp, ?_⟩
        · rw [hb, List.nil_append, ← hcb]
        · intro y hy
          rcases List.mem_cons.mp hy with rfl | hy2
          · rw [hb, ← hcb]; exact hxc
          · rw [hb]; exact hle y (hcs ▸ hy2)
      | cons a l1t =>
        simp only [List.cons_append] at heq
        rw [List.cons.injEq] at heq
        obtain ⟨hca, hcs⟩ := heq
        have hclt : c.score < (pickBest c cs).score := by
          have ha := hlt a (by simp)
          rw [← hca] at ha
          exact ha
        refine ⟨c :: x :: l1t, l2, ?_, ?_, ?_⟩
        · rw [hb]
          simp only [List.cons_append]
          rw [← hcs]
        · intro y hy
          rcases List.mem_cons.mp hy with rfl | hy2
          · rw [hb]; exact hclt
          · rcases List.mem_cons.mp hy2 with rfl | hy3
            · rw [hb]; exact lt_of_le_of_lt hxc hclt
            · rw [hb]; exact hlt y (by simp [hy3])
        · intro y hy
          rw [hb]; exact hle y hy

/-- C5: the Source Resolver records exactly one CandidateSourceValue per
configured source, positionally; a source yielding no data is recorded with
null data, score 0 and confidence 0 rather than skipped; and the best source
is the evaluated entry with the highest score, the earliest winning ties
(strictly smaller scores strictly before it, none larger after it). -/
theorem source_resolver_spec (profile : String → Option JsonVal)
    (ev : String → JsonVal → ℚ × ℚ) (sources : List String) :
    (resolve profile ev sources).length = sources.length
    ∧ (∀ i : Nat, (resolve profile ev sources)[i]? = (sources[i]?).map (resolveOne profile ev))
    ∧ (∀ s, profile s = none →
        resolveOne profile ev s = { source_field := s, data := none, score := 0, confidence := 0 })
    ∧ (∀ b, bestSource (resolve profile ev sources) = some b →
        ∃ l1 l2, resolve profile ev sources = l1 ++ b :: l2
          ∧ (∀ x ∈ l1, x.score < b.score)
          ∧ (∀ x ∈ l2, x.score ≤ b.score)) := by
  refine ⟨by simp [resolve], ?_, ?_, ?_⟩
  · intro i
    simp [resolve]
  · intro s hs
    simp [resolveOne, hs]
  · intro b hb
    cases hres : resolve profile ev sources with
    | nil =>
      rw [hres] at hb
      simp [bestSource] at hb
    | cons c cs =>
      rw [hres] at hb
      simp only [bestSource, Option.some.injEq] at hb
      rcases pickBest_split cs c with ⟨l1, l2, heq, hlt, hle⟩
      refine ⟨l1, l2, ?_, fun x hx => hb ▸ hlt x hx, fun x hx => hb ▸ hle x hx⟩
      rw [heq, hb]

/-- Witness for C5: a single configured source yielding no data is recorded
as the null/zero entry and comes back as the (trivially best) source. -/
theorem source_resolver_spec_witness :
    ∃ l1 l2, resolve (fun _ => none) (fun _ _ => (0, 0)) ["skills"]
      = l1 ++ ({ source_field := "skills", data := none, score := 0, confidence := 0 } : CandidateSourceValue) :: l2 := by
  have h := (source_resolver_spec (fun _ => none) (fun _ _ => (0, 0)) ["skills"]).2.2.2
    { source_field := "skills", data := none, score := 0, confidence := 0 } rfl
  exact ⟨h.choose, h.choose_spec.choose, h.choose_spec.choose_spec.1⟩

/-- The padded fractional part is always two digit characters, checked over
the hundred possible remainders. -/
theorem natPad2_fin_spec :
    ∀ k : Fin 100, (natPad2 k.val).length = 2 ∧ ((natPad2 k.val).data.all Char.isDigit) = true := by
  decide

/-- The padded fractional part of any natural number is two digit
characters. -/
theorem natPad2_spec (m : Nat) :
    (natPad2 m).length = 2 ∧ ((natPad2 m).data.all Char.isDigit) = true := by
  have hmod : natPad2 m = natPad2 (m % 100) := by
    unfold natPad2
    rw [Nat.mod_eq_of_lt (Nat.mod_lt m (by norm_num))]
  rw [hmod]
  exact natPad2_fin_spec ⟨m % 100, Nat.mod_lt m (by norm_num)⟩

/-- `toFixed(2)` always renders with exactly two decimal places. -/
theorem toFixed2_twoDecimals (q : ℚ) : twoDecimalRendered (toFixed2 q) :=
  ⟨(if (⌊q * 100 + 1 / 2⌋ : ℤ) < 0 then "-" else "")
      ++ Nat.repr ((⌊q * 100 + 1 / 2⌋ : ℤ).natAbs / 100),
   natPad2 (⌊q * 100 + 1 / 2⌋ : ℤ).natAbs,
   rfl, (natPad2_spec _).1, (natPad2_spec _).2⟩

/-- C6: every percentage the match views show -- the four overall scores,
each field's score and confidence, each evaluated source's score and
confidence, the candidate row's overall score and the keyword matcher's
overall match score -- is rendered with exactly two decimal places. -/
theorem percent_display_two_decimals (m : MatchResultResponse)
    (row : MatchResultRecord) (q : ℚ) :
    (∀ s ∈ dialogPercentStrings m, twoDecimalRendered s)
    ∧ twoDecimalRendered (candidateRowScoreText row)
    ∧ twoDecimalRendered (keywordOverallScoreText (some q)) := by
  refine ⟨?_, toFixed2_twoDecimals row.overallScore, toFixed2_twoDecimals q⟩
  intro s hs
  unfold dialogPercentStrings at hs
  cases hm : m.results with
  | none =>
    rw [hm] at hs
    simp at hs
  | some rs =>
    rw [hm] at hs
    rcases List.mem_append.mp hs with h4 | hbind
    · unfold overallScoreStrings at h4
      simp only [List.mem_cons, List.not_mem_nil, or_false] at h4
      rcases h4 with rfl | rfl | rfl | rfl
      all_goals exact toFixed2_twoDecimals _
    · rcases List.mem_flatMap.mp hbind with ⟨e, he, hse⟩
      rcases List.mem_map.mp he with ⟨r, hr, hre⟩
      rw [← hre] at hse
      unfold entryPercentStrings renderFieldEntry at hse
      rcases List.mem_cons.mp hse with rfl | hse2
      · exact toFixed2_twoDecimals _
      rcases List.mem_cons.mp hse2 with rfl | hse3
      · exact toFixed2_twoDecimals _
      rcases List.mem_append.mp hse3 with hsc | hcf
      · rcases List.mem_map.mp hsc with ⟨srow, hsrow, hval⟩
        rcases List.mem_map.mp hsrow with ⟨se, hsem, hser⟩
        rw [← hval, ← hser]
        exact toFixed2_twoDecimals _
      · rcases List.mem_map.mp hcf with ⟨srow, hsrow, hval⟩
        rcases List.mem_map.mp hsrow with ⟨se, hsem, hser⟩
        rw [← hval, ← hser]
        exact toFixed2_twoDecimals _

/-- Witness for C6 at a concrete response, row and keyword score. -/
theorem percent_display_two_decimals_witness :
    twoDecimalRendered (toFixed2 (1 : ℚ))
    ∧ twoDecimalRendered (candidateRowScoreText
        { id := "r1", jobId := 7, profileId := 9, candidateName := "a", overallScore := 55,
          matchResultsJson := none, organizationId := "o", agencyId := none,
          createdBy := "u", createdAt := "t" }) := by
  have h := percent_display_two_decimals
    { results := some [], overall_score_weighted := 1, overall_score_average_all := 2,
      overall_score_average_non_zero := 3, max_score := 4, max_score_field := "f" }
    { id := "r1", jobId := 7, profileId := 9, candidateName := "a", overallScore := 55,
      matchResultsJson := none, organizationId := "o", agencyId := none,
      createdBy := "u", createdAt := "t" }
    5
  exact ⟨h.1 (toFixed2 1) (by simp [dialogPercentStrings, overallScoreStrings]), h.2.1⟩

/-- C7: when the response's results list is present the dialog renders one
field-breakdown entry per element, positionally preserving the field name,
with no filtering on score or match requirement -- in particular a mandatory
field with score 0 is still rendered and the display does not fail. -/
theorem dialog_renders_every_field (m : MatchResultResponse) (rs : List MatchResult)
    (h : m.results = some rs) :
    renderMatchResultDialog (some m)
      = DialogView.report (overallScoreStrings m) (rs.map renderFieldEntry)
    ∧ (rs.map renderFieldEntry).length = rs.length
    ∧ ∀ i : Nat, ((rs.map renderFieldEntry)[i]?).map FieldEntry.fieldText
        = (rs[i]?).map MatchResult.field := by
  refine ⟨?_, by simp, ?_⟩
  · simp [renderMatchResultDialog, h]
  · intro i
    rw [List.getElem?_map]
    cases hi : rs[i]? with
    | none => rfl
    | some r => simp [renderFieldEntry]

/-- Witness for C7: a mandatory-style field with score 0 is rendered. -/
theorem dialog_renders_every_field_witness :
    renderMatchResultDialog (some
      { results := some [{ field := "job_title", score := 0, confidence := 0,
                           best_source_used := "", req_data := JsonVal.str "t",
                           sources_evaluated := [] }],
        overall_score_weighted := 0, overall_score_average_all := 0,
        overall_score_average_non_zero := 0, max_score := 0, max_score_field := "" })
      = DialogView.report
          (overallScoreStrings
            { results := some [{ field := "job_title", score := 0, confidence := 0,
                                 best_source_used := "", req_data := JsonVal.str "t",
                                 sources_evaluated := [] }],
              overall_score_weighted := 0, overall_score_average_all := 0,
              overall_score_average_non_zero := 0, max_score := 0, max_score_field := "" })
          ([{ field := "job_title", score := 0, confidence := 0,
              best_source_used := "", req_data := JsonVal.str "t",
              sources_evaluated := [] }].map renderFieldEntry) :=
  (dialog_renders_every_field _ _ rfl).1

/-- C10: the dialog shows the "No Match Results Available" fallback exactly
when the response is absent or its results list is missing/null; the display
is total on every input and never reads the missing list. -/
theorem dialog_fallback_iff (m : Option MatchResultResponse) :
    renderMatchResultDialog m = DialogView.noResults
      ↔ (m = none ∨ ∃ mr, m = some mr ∧ mr.results = none) := by
  cases m with
  | none => simp [renderMatchResultDialog]
  | some mr =>
    cases hres : mr.results with
    | none => simp [renderMatchResultDialog, hres]
    | some rs => simp [renderMatchResultDialog, hres]

/-- Witness for C10 at a concrete response with a missing results list. -/
theorem dialog_fallback_iff_witness :
    renderMatchResultDialog (some
      { results := none, overall_score_weighted := 1, overall_score_average_all := 2,
        overall_score_average_non_zero := 3, max_score := 4, max_score_field := "f" })
      = DialogView.noResults :=
  (dialog_fallback_iff _).mpr (Or.inr ⟨_, rfl, rfl⟩)

/-- Whenever the sort completes with a value, that value is a permutation of
the input rows. -/
theorem sortedResults_ok_perm (order : SortOrder) (orderBy : SortColumn)
    (rs out : List MatchResultRecord)
    (h : sortedResults (some rs) order orderBy = Except.ok out) : out.Perm rs := by
  simp only [sortedResults] at h
  split at h
  · rename_i h0
    rw [Except.ok.injEq] at h
    subst h
    rw [List.length_eq_zero.mp h0]
  · split at h
    · rw [Except.ok.injEq] at h
      subst h
      exact List.Perm.refl rs
    · split at h
      · cases h
      · rw [Except.ok.injEq] at h
        subst h
        exact List.mergeSort_perm rs _

/-- A non-jobTitle column's key extraction always succeeds. -/
theorem sortKey_total_ok (orderBy : SortColumn) (h : orderBy ≠ SortColumn.jobTitle)
    (row : MatchResultRecord) : ∃ k, sortKey orderBy row = Except.ok k := by
  cases orderBy with
  | jobTitle => exact absurd rfl h
  | candidateName => exact ⟨_, rfl⟩
  | profileId => exact ⟨_, rfl⟩
  | overallScore => exact ⟨_, rfl⟩

/-- Key extraction over a whole row list succeeds for a non-jobTitle
column. -/
theorem mapM_sortKey_ok (orderBy : SortColumn) (h : orderBy ≠ SortColumn.jobTitle)
    (rs : List MatchResultRecord) : ∃ ks, rs.mapM (sortKey orderBy) = Except.ok ks := by
  induction rs with
  | nil => exact ⟨[], rfl⟩
  | cons x xs ih =>
    rcases sortKey_total_ok orderBy h x with ⟨k, hk⟩
    rcases ih with ⟨ks, hks⟩
    refine ⟨k :: ks, ?_⟩
    rw [List.mapM_cons, hk, hks]
    rfl

/-- C8 (amended): a missing or empty results input yields the empty list;
whenever the sort completes without a raised TypeError its output is a
permutation of the input (same elements, same multiplicity -- the spread
copy leaves the input untouched in this pure model); and for every column
other than jobTitle the sort always completes with a permutation. -/
theorem sorted_results_spec (order : SortOrder) (orderBy : SortColumn) :
    sortedResults none order orderBy = Except.ok []
    ∧ sortedResults (some []) order orderBy = Except.ok []
    ∧ (∀ rs out, sortedResults (some rs) order orderBy = Except.ok out → out.Perm rs)
    ∧ (∀ rs, orderBy ≠ SortColumn.jobTitle →
        ∃ out, sortedResults (some rs) order orderBy = Except.ok out ∧ out.Perm rs) := by
  refine ⟨rfl, rfl, fun rs out h => sortedResults_ok_perm order orderBy rs out h, ?_⟩
  intro rs hob
  by_cases h0 : rs.length = 0
  · refine ⟨[], by simp [sortedResults, h0], ?_⟩
    rw [List.length_eq_zero.mp h0]
  · by_cases h1 : rs.length = 1
    · exact ⟨rs, by simp [sortedResults, h0, h1], List.Perm.refl rs⟩
    · rcases mapM_sortKey_ok orderBy hob rs with ⟨ks, hks⟩
      refine ⟨rs.mergeSort (fun a b => decide (jsCompareRows order orderBy a b ≤ 0)), ?_,
        List.mergeSort_perm rs _⟩
      have hred : sortedResults (some rs) order orderBy
          = match rs.mapM (sortKey orderBy) with
            | Except.error e => Except.error e
            | Except.ok _ =>
              Except.ok (rs.mergeSort (fun a b => decide (jsCompareRows order orderBy a b ≤ 0))) := by
        simp only [sortedResults, if_neg h0, if_neg h1]
      rw [hred, hks]

/-- Witness for C8: a singleton sorted by overall score comes back as a
permutation of itself. -/
theorem sorted_results_spec_witness :
    ∃ out, sortedResults (some
        [{ id := "1", jobId := 1, profileId := 1, candidateName := "a", overallScore := 1,
           matchResultsJson := none, organizationId := "o", agencyId := none,
           createdBy := "u", createdAt := "t" }])
        SortOrder.asc SortColumn.overallScore = Except.ok out
      ∧ out.Perm
        [{ id := "1", jobId := 1, profileId := 1, candidateName := "a", overallScore := 1,
           matchResultsJson := none, organizationId := "o", agencyId := none,
           createdBy := "u", createdAt := "t" }] :=
  (sorted_results_spec SortOrder.asc SortColumn.overallScore).2.2.2 _ (by decide)

/-- C8 counterexample: with two rows and the jobTitle column, a `job_title`
req_data that is a string array makes the comparator call
`toLowerCase` on an array -- a TypeError -- so the computation errors instead
of returning a permutation of the input. -/
theorem sorted_results_cex :
    ∃ e, sortedResults (some
      [{ id := "1", jobId := 1, profileId := 1, candidateName := "a", overallScore := 1,
         matchResultsJson := some
           { results := some [{ field := "job_title", score := 0, confidence := 0,
                                best_source_used := "",
                                req_data := JsonVal.arr [JsonVal.str "Engineer"],
                                sources_evaluated := [] }],
             overall_score_weighted := 0, overall_score_average_all := 0,
             overall_score_average_non_zero := 0, max_score := 0, max_score_field := "" },
         organizationId := "o", agencyId := none, createdBy := "u", createdAt := "t" },
       { id := "2", jobId := 1, profileId := 2, candidateName := "b", overallScore := 2,
         matchResultsJson := none, organizationId := "o", agencyId := none,
         createdBy := "u", createdAt := "t" }])
      SortOrder.asc SortColumn.jobTitle = Except.error e :=
  ⟨_, rfl⟩

/-- C9 (amended): the general list holds exactly the rule entries whose value
is a non-null object carrying a `data` key under a key other than
`keywordmatch`; the keyword list holds exactly the non-null entries nested
under `keywordmatch`; and the general list never contains an entry keyed
`keywordmatch`, so the keywordmatch group itself is never a general entry
(the two lists may still share a pair when the same key/value occurs both at
top level and inside `keywordmatch`). -/
theorem rule_fields_characterization (rd : JsonVal) :
    (∀ k v, (k, v) ∈ getGeneralRuleFields rd ↔
      (jsFalsy rd = false ∧ (k, v) ∈ jsEntries rd ∧ typeofObject v = true
        ∧ isNullJson v = false ∧ hasKey v "data" = true ∧ k ≠ "keywordmatch"))
    ∧ (∀ k v, (k, v) ∈ getKeywordMatchFields rd ↔
      (jsFalsy rd = false ∧ jsFalsy (jsGet rd "keywordmatch") = false
        ∧ (k, v) ∈ jsEntries (jsGet rd "keywordmatch") ∧ isNullJson v = false))
    ∧ (∀ v, ("keywordmatch", v) ∉ getGeneralRuleFields rd) := by
  have h1 : ∀ k v, (k, v) ∈ getGeneralRuleFields rd ↔
      (jsFalsy rd = false ∧ (k, v) ∈ jsEntries rd ∧ typeofObject v = true
        ∧ isNullJson v = false ∧ hasKey v "data" = true ∧ k ≠ "keywordmatch") := by
    intro k v
    unfold getGeneralRuleFields
    by_cases hf : jsFalsy rd = true
    · simp [hf]
    · have hf2 : jsFalsy rd = false := Bool.eq_false_iff.mpr hf
      simp [hf2, List.mem_filter]
      tauto
  have h2 : ∀ k v, (k, v) ∈ getKeywordMatchFields rd ↔
      (jsFalsy rd = false ∧ jsFalsy (jsGet rd "keywordmatch") = false
        ∧ (k, v) ∈ jsEntries (jsGet rd "keywordmatch") ∧ isNullJson v = false) := by
    intro k v
    unfold getKeywordMatchFields
    by_cases hf : jsFalsy rd = true
    · simp [hf]
    · have hf2 : jsFalsy rd = false := Bool.eq_false_iff.mpr hf
      by_cases hk : jsFalsy (jsGet rd "keywordmatch") = true
      · simp [hf2, hk]
      · have hk2 : jsFalsy (jsGet rd "keywordmatch") = false := Bool.eq_false_iff.mpr hk
        simp [hf2, hk2, List.mem_filter]
  refine ⟨h1, h2, ?_⟩
  intro v hv
  exact ((h1 _ _).mp hv).2.2.2.2.2 rfl

/-- Witness for C9: a concrete rule object with one general field. -/
theorem rule_fields_characterization_witness :
    ("title", JsonVal.obj [("data", JsonVal.str "x")]) ∈ getGeneralRuleFields
      (JsonVal.obj [("title", JsonVal.obj [("data", JsonVal.str "x")])]) := by
  refine ((rule_fields_characterization _).1 _ _).mpr ⟨rfl, ?_, rfl, rfl, rfl, by decide⟩
  exact List.mem_singleton.mpr rfl

/-- C9 counterexample: when the same key/value pair sits both at top level
and inside `keywordmatch`, the general and keyword field lists share an
entry, so the two collections are not always disjoint. -/
theorem rule_fields_disjoint_cex :
    ∃ e, e ∈ getGeneralRuleFields (JsonVal.obj
        [("x", JsonVal.obj [("data", JsonVal.str "d")]),
         ("keywordmatch", JsonVal.obj [("x", JsonVal.obj [("data", JsonVal.str "d")])])])
      ∧ e ∈ getKeywordMatchFields (JsonVal.obj
        [("x", JsonVal.obj [("data", JsonVal.str "d")]),
         ("keywordmatch", JsonVal.obj [("x", JsonVal.obj [("data", JsonVal.str "d")])])]) := by
  refine ⟨("x", JsonVal.obj [("data", JsonVal.str "d")]), ?_, ?_⟩
  · have h : getGeneralRuleFields (JsonVal.obj
        [("x", JsonVal.obj [("data", JsonVal.str "d")]),
         ("keywordmatch", JsonVal.obj [("x", JsonVal.obj [("data", JsonVal.str "d")])])])
        = [("x", JsonVal.obj [("data", JsonVal.str "d")])] := rfl
    rw [h]
    exact List.mem_singleton.mpr rfl
  · have h : getKeywordMatchFields (JsonVal.obj
        [("x", JsonVal.obj [("data", JsonVal.str "d")]),
         ("keywordmatch", JsonVal.obj [("x", JsonVal.obj [("data", JsonVal.str "d")])])])
        = [("x", JsonVal.obj [("data", JsonVal.str "d")])] := rfl
    rw [h]
    exact List.mem_singleton.mpr rfl

end RecruitAI
